import Mathlib

/-!
Verification of the JOINUP server progress & gamification engine.

The definitions below are a shallow embedding of the TypeScript controllers
(`challengeController.ts`, the badge controller and the ranking controller)
into Lean.  Calendar days are modelled as integers counting UTC days: the
controller truncates `new Date()` to UTC midnight before every comparison, so
one `Int` value corresponds to one UTC calendar day, and `yesterday` is
`today - 1`.  JavaScript `Math.round` on a nonnegative quotient is modelled on
rationals as `⌊q + 1/2⌋`.
-/

namespace JoinUp

/-- JavaScript `Math.round`: rounds half away from zero toward positive
infinity, i.e. `Math.round x = ⌊x + 1/2⌋` for every real `x`. -/
def jsRound (q : ℚ) : ℤ := ⌊q + 1/2⌋

/-- Per-(user, challenge) progress record, after the `UserChallenge` mongoose
model.  Field defaults in the schema are: empty lists, `score = 0`,
`totalCompletions = 0`, `currentStreakCount = 0`, `maxStreakCount = 0`,
`lastCompletionDate` unset. -/
structure ProgressRecord where
  completedDates : List Int
  completionPhotos : List (Int × String)
  startDate : Int
  score : Nat
  totalCompletions : Nat
  currentStreakCount : Nat
  maxStreakCount : Nat
  lastCompletionDate : Option Int
  deriving DecidableEq, Repr

/-- Record created by `joinChallenge`: `startDate = now`, all counters at the
schema defaults. -/
def freshRecord (startDate : Int) : ProgressRecord :=
  { completedDates := []
    completionPhotos := []
    startDate := startDate
    score := 0
    totalCompletions := 0
    currentStreakCount := 0
    maxStreakCount := 0
    lastCompletionDate := none }

/-- Failure of the record-update part of `completeChallenge`.  The
`alreadyCompletedToday` case is the 400 response 이미 오늘 완료했습니다
returned before any field of the record is mutated. -/
inductive CompleteError where
  | alreadyCompletedToday
  deriving DecidableEq, Repr

/-- Record-update part of `completeChallenge` (challengeController.ts
lines 298-356): reject when `today` is already among `completedDates`
(timestamp equality on UTC midnights), otherwise push `today` and the photo,
bump `totalCompletions` and `score` (+10), set `lastCompletionDate`, then
recompute the streak: `yesterday = today - 1` is looked up in the (already
extended) `completedDates`, and `maxStreakCount` is raised when exceeded. -/
def completeRecord (rec : ProgressRecord) (today : Int) (photoUrl : String) :
    Except CompleteError ProgressRecord :=
  if today ∈ rec.completedDates then
    .error .alreadyCompletedToday
  else
    let completedDates := rec.completedDates ++ [today]
    let yesterday := today - 1
    let currentStreak :=
      if yesterday ∈ completedDates then rec.currentStreakCount + 1 else 1
    let maxStreak :=
      if currentStreak > rec.maxStreakCount then currentStreak
      else rec.maxStreakCount
    .ok { rec with
          completedDates := completedDates
          completionPhotos := rec.completionPhotos ++ [(today, photoUrl)]
          totalCompletions := rec.totalCompletions + 1
          score := rec.score + 10
          lastCompletionDate := some today
          currentStreakCount := currentStreak
          maxStreakCount := maxStreak }

/-- Sequence of completion attempts applied to one record; an attempt that
fails with `alreadyCompletedToday` leaves the record as it was (the controller
returns before mutating).  The second component counts the successes. -/
def completeMany (rec : ProgressRecord) (events : List (Int × String)) :
    ProgressRecord × Nat :=
  events.foldl
    (fun acc ev =>
      match completeRecord acc.1 ev.1 ev.2 with
      | .ok r => (r, acc.2 + 1)
      | .error _ => acc)
    (rec, 0)

end JoinUp

namespace JoinUp

theorem completeRecord_mem {rec : ProgressRecord} {today : Int} {p : String}
    (h : today ∈ rec.completedDates) :
    completeRecord rec today p = .error .alreadyCompletedToday := by
  simp [completeRecord, h]

theorem completeRecord_not_mem {rec : ProgressRecord} {today : Int} {p : String}
    (h : today ∉ rec.completedDates) :
    ∃ rec', completeRecord rec today p = .ok rec' ∧
      rec'.completedDates = rec.completedDates ++ [today] ∧
      rec'.completionPhotos = rec.completionPhotos ++ [(today, p)] ∧
      rec'.totalCompletions = rec.totalCompletions + 1 ∧
      rec'.score = rec.score + 10 ∧
      rec'.lastCompletionDate = some today ∧
      rec'.startDate = rec.startDate := by
  unfold completeRecord
  rw [if_neg h]
  exact ⟨_, rfl, rfl, rfl, rfl, rfl, rfl, rfl⟩

theorem completeMany_score (events : List (Int × String)) :
    ∀ rec : ProgressRecord,
      (completeMany rec events).1.score =
        rec.score + 10 * (completeMany rec events).2 := by
  have main : ∀ (evs : List (Int × String)) (rec : ProgressRecord) (n : Nat),
      (evs.foldl
        (fun acc ev =>
          match completeRecord acc.1 ev.1 ev.2 with
          | .ok r => (r, acc.2 + 1)
          | .error _ => acc) (rec, n)).1.score =
      rec.score + 10 * ((evs.foldl
        (fun acc ev =>
          match completeRecord acc.1 ev.1 ev.2 with
          | .ok r => (r, acc.2 + 1)
          | .error _ => acc) (rec, n)).2 - n) ∧
      n ≤ (evs.foldl
        (fun acc ev =>
          match completeRecord acc.1 ev.1 ev.2 with
          | .ok r => (r, acc.2 + 1)
          | .error _ => acc) (rec, n)).2 := by
    intro evs
    induction evs with
    | nil => intro rec n; simp
    | cons ev rest ih =>
      intro rec n
      by_cases h : ev.1 ∈ rec.completedDates
      · simpa [List.foldl_cons, completeRecord_mem h] using ih rec n
      · obtain ⟨rec', hok, -, -, -, hscore, -, -⟩ :=
          @completeRecord_not_mem rec ev.1 ev.2 h
        have := ih rec' (n + 1)
        simp only [List.foldl_cons, hok]
        refine ⟨?_, by omega⟩
        rw [this.1, hscore]
        omega
  intro rec
  have := main events rec 0
  simpa [completeMany] using this.1

/-- C1: the completion operation succeeds iff today's UTC-midnight day is not
already in `completedDates`; a repeat on the same day fails with
`alreadyCompletedToday` and returns before any field is mutated; a success
appends today to `completedDates`, appends the (today, photo) pair to
`completionPhotos`, increments `totalCompletions`, adds exactly 10 to `score`
(so a fresh record holds `score = 10 * N` after `N` successes) and sets
`lastCompletionDate` to today. -/
theorem completion_daily_idempotent (rec : ProgressRecord) (today : Int)
    (p p2 : String) :
    ((∃ rec', completeRecord rec today p = .ok rec') ↔
        today ∉ rec.completedDates) ∧
    (today ∈ rec.completedDates →
      completeRecord rec today p = .error .alreadyCompletedToday) ∧
    (∀ rec', completeRecord rec today p = .ok rec' →
      rec'.completedDates = rec.completedDates ++ [today] ∧
      rec'.completionPhotos = rec.completionPhotos ++ [(today, p)] ∧
      rec'.totalCompletions = rec.totalCompletions + 1 ∧
      rec'.score = rec.score + 10 ∧
      rec'.lastCompletionDate = some today ∧
      completeRecord rec' today p2 = .error .alreadyCompletedToday) ∧
    (∀ (startDate : Int) (events : List (Int × String)),
      (completeMany (freshRecord startDate) events).1.score =
        10 * (completeMany (freshRecord startDate) events).2) := by
  refine ⟨?_, fun h => completeRecord_mem h, ?_, ?_⟩
  · constructor
    · rintro ⟨rec', hok⟩ hmem
      rw [completeRecord_mem hmem] at hok
      exact Except.noConfusion hok
    · intro hmem
      obtain ⟨rec', hok, -⟩ := @completeRecord_not_mem rec today p hmem
      exact ⟨rec', hok⟩
  · intro rec' hok
    by_cases hmem : today ∈ rec.completedDates
    · rw [completeRecord_mem hmem] at hok
      exact Except.noConfusion hok
    · obtain ⟨rec'', hok', h1, h2, h3, h4, h5, -⟩ :=
        @completeRecord_not_mem rec today p hmem
      rw [hok'] at hok
      cases hok
      refine ⟨h1, h2, h3, h4, h5, completeRecord_mem ?_⟩
      rw [h1]
      simp
  · intro startDate events
    have := completeMany_score events (freshRecord startDate)
    simpa [freshRecord] using this

/-- Witness for C1 at a concrete record: completing day 5 on a record that
already contains day 5 fails, and a fresh record scores 10 after one
success. -/
theorem completion_daily_idempotent_witness :
    completeRecord { freshRecord 0 with completedDates := [5] } 5 "a" =
      .error .alreadyCompletedToday ∧
    (completeMany (freshRecord 0) [(3, "a")]).1.score =
      10 * (completeMany (freshRecord 0) [(3, "a")]).2 :=
  ⟨(completion_daily_idempotent { freshRecord 0 with completedDates := [5] }
      5 "a" "b").2.1 (by decide),
   (completion_daily_idempotent (freshRecord 0) 5 "a" "b").2.2.2 0 [(3, "a")]⟩

/-- C2: after a successful completion on day `D` the streak counter is the
previous counter plus one when `D - 1` lies in the previous `completedDates`
and one otherwise; `maxStreakCount` becomes the maximum of its previous value
and the new streak, hence never decreases; completing `[D, D+1, D+2]` from a
fresh record yields streaks 1, 2, 3 and completing `[D, D+2]` yields 1 after
the second completion. -/
theorem streak_update (rec : ProgressRecord) (today : Int) (p : String) :
    (∀ rec', completeRecord rec today p = .ok rec' →
      (rec'.currentStreakCount =
        if today - 1 ∈ rec.completedDates then rec.currentStreakCount + 1
        else 1) ∧
      rec'.maxStreakCount = max rec.maxStreakCount rec'.currentStreakCount ∧
      rec.maxStreakCount ≤ rec'.maxStreakCount) ∧
    (∀ startDate D : Int,
      (completeMany (freshRecord startDate) [(D, p)]).1.currentStreakCount
          = 1 ∧
      (completeMany (freshRecord startDate)
          [(D, p), (D + 1, p)]).1.currentStreakCount = 2 ∧
      (completeMany (freshRecord startDate)
          [(D, p), (D + 1, p), (D + 2, p)]).1.currentStreakCount = 3 ∧
      (completeMany (freshRecord startDate)
          [(D, p), (D + 2, p)]).1.currentStreakCount = 1) := by
  constructor
  · intro rec' hok
    by_cases hmem : today ∈ rec.completedDates
    · rw [completeRecord_mem hmem] at hok
      exact Except.noConfusion hok
    · have hne : today - 1 ≠ today := by omega
      have hns : (today - 1 ∈ rec.completedDates ++ [today]) ↔
          today - 1 ∈ rec.completedDates := by
        simp [hne]
      unfold completeRecord at hok
      rw [if_neg hmem] at hok
      cases hok
      dsimp only
      simp only [hns]
      refine ⟨by trivial, ?_, ?_⟩ <;>
        by_cases hy : today - 1 ∈ rec.completedDates <;>
          simp only [hy, ite_true, ite_false, if_pos, if_neg,
            not_false_iff] <;>
          split <;> omega
  · intro startDate D
    have h1 : D - 1 ≠ D := by omega
    have h2 : D + 1 ≠ D := by omega
    have h3 : D + 2 ≠ D := by omega
    have h4 : D + 1 - 1 = D := by omega
    have h5 : D + 2 - 1 = D + 1 := by omega
    have h6 : D + 1 ≠ D + 2 := by omega
    refine ⟨?_, ?_, ?_, ?_⟩ <;>
      simp [completeMany, completeRecord, freshRecord,
        h1, h2, h3, h4, h5, h6]

/-- Witness for C2 at concrete days: from a fresh record, completions on days
0, 1, 2 give streak 3, and on days 0 then 2 give streak 1. -/
theorem streak_update_witness :
    (completeMany (freshRecord 0)
        [((0 : Int), "a"), (0 + 1, "a"), (0 + 2, "a")]).1.currentStreakCount
      = 3 ∧
    (completeMany (freshRecord 0)
        [((0 : Int), "a"), (0 + 2, "a")]).1.currentStreakCount = 1 :=
  ⟨((streak_update (freshRecord 0) 0 "a").2 0 0).2.2.1,
   ((streak_update (freshRecord 0) 0 "a").2 0 0).2.2.2⟩

end JoinUp

namespace JoinUp

/-- Streak bonus added on top of the base trust increase of 1
(challengeController.ts lines 366-375): +2 for a streak of at least 10,
else +1.5 for at least 7, else +1 for at least 3, else nothing. -/
def trustBonus (streak : Nat) : ℚ :=
  if streak ≥ 10 then 2
  else if streak ≥ 7 then 3/2
  else if streak ≥ 3 then 1
  else 0

/-- Total trust-score increase applied on a successful completion: base 1
plus the streak bonus. -/
def trustIncrease (streak : Nat) : ℚ := 1 + trustBonus streak

/-- Trust-score update: `trustScore = Math.min(100, trustScore + increase)`. -/
def applyTrust (trustScore : ℚ) (streak : Nat) : ℚ :=
  min 100 (trustScore + trustIncrease streak)

/-- User grade tiers, after the `User` model enum. -/
inductive Grade where
  | bronze | silver | gold | diamond
  deriving DecidableEq, Repr

/-- Grade classifier inlined in `completeChallenge` (lines 392-404): badge
count at least 40 gives diamond, else at least 20 gives gold, else at least
10 gives silver, else bronze. -/
def gradeForBadgeCount (badgeCount : Nat) : Grade :=
  if badgeCount ≥ 40 then .diamond
  else if badgeCount ≥ 20 then .gold
  else if badgeCount ≥ 10 then .silver
  else .bronze

/-- Grade write step (lines 406-411): the stored grade is overwritten only
when the computed grade differs; the boolean records whether a write
happened. -/
def gradeUpdate (stored : Grade) (badgeCount : Nat) : Grade × Bool :=
  let newGrade := gradeForBadgeCount badgeCount
  if stored ≠ newGrade then (newGrade, true) else (stored, false)

/-- Inputs of `updateCompletionRate` for a single progress record:
`daysSinceStart` is `Math.floor((now - startDate) / day)` and
`totalCompletions` the stored counter. -/
structure RateRecord where
  daysSinceStart : Int
  totalCompletions : Nat
  deriving DecidableEq, Repr

/-- Per-record possible days: `Math.max(1, Math.min(daysSinceStart + 1, 30))`
(challengeController.ts line 613). -/
def possibleDays (r : RateRecord) : Int :=
  max 1 (min (r.daysSinceStart + 1) 30)

/-- Challenge-level completion rate recompute (`updateCompletionRate`,
challengeController.ts lines 592-631): zero when the challenge has no
progress records, otherwise `Math.round((totalActual / totalPossible) * 100)`
guarded by `totalPossible > 0`. -/
def updateCompletionRate (records : List RateRecord) : ℤ :=
  if records.length = 0 then 0
  else
    let totalPossible := (records.map possibleDays).sum
    let totalActual := (records.map (·.totalCompletions)).sum
    if totalPossible > 0 then
      jsRound (((totalActual : ℚ) / (totalPossible : ℚ)) * 100)
    else 0

/-- Badge condition kinds, after the `Badge` model enum. -/
inductive BadgeCondType where
  | completions | streak | score | challenges | days | categoryCompletions
  deriving DecidableEq, Repr

/-- Badge condition: a kind, a numeric threshold, and for
`categoryCompletions` a target category. -/
structure BadgeCondition where
  type : BadgeCondType
  value : Nat
  categoryTarget : Option String
  deriving DecidableEq, Repr

/-- Catalog entry; `id` stands for the mongo `_id`. -/
structure Badge where
  id : Nat
  condition : BadgeCondition
  deriving DecidableEq, Repr

/-- Lifetime aggregates computed by `checkAndAwardBadges` from all the user's
progress records.  `categoryCompletions` is the per-category completion map,
total function with default 0 for absent categories. -/
structure UserStats where
  totalCompletions : Nat
  maxStreak : Nat
  totalScore : Nat
  totalChallenges : Nat
  totalActiveDays : Nat
  categoryCompletions : String → Nat

/-- Condition check of `checkAndAwardBadges` (badge controller lines
1215-1239): the aggregate selected by the condition type must reach the
threshold; a `categoryCompletions` badge without a target never fires. -/
def conditionMet (stats : UserStats) (b : Badge) : Bool :=
  match b.condition.type with
  | .completions => stats.totalCompletions ≥ b.condition.value
  | .streak => stats.maxStreak ≥ b.condition.value
  | .score => stats.totalScore ≥ b.condition.value
  | .challenges => stats.totalChallenges ≥ b.condition.value
  | .days => stats.totalActiveDays ≥ b.condition.value
  | .categoryCompletions =>
      match b.condition.categoryTarget with
      | some target => stats.categoryCompletions target ≥ b.condition.value
      | none => false

/-- User-profile fields mutated by the completion cascade. -/
structure UserState where
  trustScore : ℚ
  earnedBadges : List Nat
  representativeBadges : List (Nat × Nat)
  grade : Grade

/-- One catalog entry processed by the badge loop (lines 1207-1255): skip if
already earned, test the condition, on success append to `earnedBadges` and,
while fewer than 4 representative badges exist, auto-fill the next slot. -/
def awardBadge (stats : UserStats) (u : UserState) (b : Badge) : UserState :=
  if b.id ∈ u.earnedBadges then u
  else if conditionMet stats b then
    { u with
      earnedBadges := u.earnedBadges ++ [b.id]
      representativeBadges :=
        if u.representativeBadges.length < 4 then
          u.representativeBadges ++ [(b.id, u.representativeBadges.length + 1)]
        else u.representativeBadges }
  else u

/-- Badge evaluation engine: scan the whole catalog in order against the
user's aggregates. -/
def checkAndAwardBadges (stats : UserStats) (catalog : List Badge)
    (u : UserState) : UserState :=
  catalog.foldl (awardBadge stats) u

/-- Aggregation prefix of `checkAndAwardBadges` (lines 1189-1203), over the
user's records paired with their challenge's category. -/
def userStatsOf (records : List (String × ProgressRecord)) : UserStats :=
  { totalCompletions := (records.map (·.2.totalCompletions)).sum
    maxStreak := (records.map (·.2.maxStreakCount)).foldr max 0
    totalScore := (records.map (·.2.score)).sum
    totalChallenges := records.length
    totalActiveDays := (records.map (·.2.completedDates.length)).sum
    categoryCompletions := fun c =>
      ((records.filter (fun r => r.1 == c)).map (·.2.totalCompletions)).sum }

/-- Argument shape of a call to the `checkAndAwardBadges` Express handler:
either a genuine authenticated request carrying `req.user.id`, or a bare
string (what `completeChallenge` passes at line 387). -/
inductive BadgeCallArg where
  | authRequest (userId : String)
  | bareUserId (userId : String)

/-- Call semantics of the `checkAndAwardBadges` handler.  The handler reads
`req.user!.id`; on a genuine request the engine runs.  When the caller passes
a bare userId string, `req.user` evaluates to `undefined`, the `.id` access
throws a TypeError, and the handler's own try/catch logs it and returns, so
the user document is left untouched. -/
def checkAndAwardBadgesCall (arg : BadgeCallArg) (stats : UserStats)
    (catalog : List Badge) (u : UserState) : UserState :=
  match arg with
  | .authRequest _ => checkAndAwardBadges stats catalog u
  | .bareUserId _ => u

/-- Success payload of `completeChallenge` (lines 419-434). -/
structure CompleteResponse where
  score : Nat
  totalCompletions : Nat
  currentStreakCount : Nat
  maxStreakCount : Nat
  completedDate : Int
  photoUrl : String
  trustScore : ℚ
  trustScoreIncrease : ℚ
  currentGrade : Grade
  totalBadges : Nat

/-- Full post-state of one `completeChallenge` request. -/
structure CompleteOutcome where
  record : ProgressRecord
  user : UserState
  response : CompleteResponse

/-- Whole `completeChallenge` operation (challengeController.ts lines
266-449): record update, then the cascade — trust-score update from the
post-update streak, the badge-engine call (made with the bare userId string,
hence a swallowed TypeError and no badge mutation), the grade update from the
badge count, and the response read from the final user document. -/
def completeChallenge (today : Int) (photoUrl : String) (rec : ProgressRecord)
    (user : UserState) (userId : String) (myCategory : String)
    (otherRecords : List (String × ProgressRecord)) (catalog : List Badge) :
    Except CompleteError CompleteOutcome :=
  match completeRecord rec today photoUrl with
  | .error e => .error e
  | .ok rec' =>
    let increase := trustIncrease rec'.currentStreakCount
    let user1 := { user with
                   trustScore := min 100 (user.trustScore + increase) }
    let stats := userStatsOf ((myCategory, rec') :: otherRecords)
    let user2 := checkAndAwardBadgesCall (.bareUserId userId) stats catalog
                   user1
    let user3 := { user2 with
                   grade := (gradeUpdate user2.grade
                     user2.earnedBadges.length).1 }
    .ok { record := rec'
          user := user3
          response :=
            { score := rec'.score
              totalCompletions := rec'.totalCompletions
              currentStreakCount := rec'.currentStreakCount
              maxStreakCount := rec'.maxStreakCount
              completedDate := today
              photoUrl := photoUrl
              trustScore := user3.trustScore
              trustScoreIncrease := increase
              currentGrade := user3.grade
              totalBadges := user3.earnedBadges.length } }

end JoinUp

namespace JoinUp

theorem one_le_possibleDays (r : RateRecord) : 1 ≤ possibleDays r :=
  le_max_left _ _

theorem sum_possibleDays_nonneg (records : List RateRecord) :
    0 ≤ (records.map possibleDays).sum := by
  induction records with
  | nil => simp
  | cons r t ih =>
    have := one_le_possibleDays r
    simp only [List.map_cons, List.sum_cons]
    omega

theorem sum_possibleDays_pos {records : List RateRecord}
    (h : records.length ≠ 0) : 0 < (records.map possibleDays).sum := by
  cases records with
  | nil => simp at h
  | cons r t =>
    have h1 := one_le_possibleDays r
    have h2 := sum_possibleDays_nonneg t
    simp only [List.map_cons, List.sum_cons]
    omega

/-- C5: on a successful completion the applied trust increase is exactly the
base 1 plus the streak bonus determined by the post-update streak (+2 when at
least 10, +1.5 when at least 7, +1 when at least 3, nothing below 3, exactly
one tier), the new trust score is `min(100, old + increase)`, it never
exceeds 100, and from 99 with an increase of 3 it lands exactly on 100. -/
theorem trust_score_update (today : Int) (photoUrl : String)
    (rec : ProgressRecord) (user : UserState) (userId myCategory : String)
    (otherRecords : List (String × ProgressRecord)) (catalog : List Badge)
    (outcome : CompleteOutcome)
    (hok : completeChallenge today photoUrl rec user userId myCategory
      otherRecords catalog = .ok outcome) :
    outcome.response.trustScoreIncrease =
      trustIncrease outcome.record.currentStreakCount ∧
    (10 ≤ outcome.record.currentStreakCount →
      outcome.response.trustScoreIncrease = 3) ∧
    (7 ≤ outcome.record.currentStreakCount →
      outcome.record.currentStreakCount < 10 →
      outcome.response.trustScoreIncrease = 5/2) ∧
    (3 ≤ outcome.record.currentStreakCount →
      outcome.record.currentStreakCount < 7 →
      outcome.response.trustScoreIncrease = 2) ∧
    (outcome.record.currentStreakCount < 3 →
      outcome.response.trustScoreIncrease = 1) ∧
    outcome.user.trustScore =
      min 100 (user.trustScore + outcome.response.trustScoreIncrease) ∧
    outcome.response.trustScore = outcome.user.trustScore ∧
    outcome.user.trustScore ≤ 100 ∧
    (user.trustScore = 99 → outcome.response.trustScoreIncrease = 3 →
      outcome.user.trustScore = 100) := by
  unfold completeChallenge at hok
  cases hrec : completeRecord rec today photoUrl with
  | error e => rw [hrec] at hok; exact Except.noConfusion hok
  | ok rec' =>
    rw [hrec] at hok
    cases hok
    refine ⟨rfl, ?_, ?_, ?_, ?_, rfl, rfl, min_le_left _ _, ?_⟩
    · intro h10
      have h : 10 ≤ rec'.currentStreakCount := h10
      show trustIncrease rec'.currentStreakCount = 3
      simp only [trustIncrease, trustBonus, ge_iff_le, h, if_pos]
      norm_num
    · intro h7 h10
      have h : 7 ≤ rec'.currentStreakCount := h7
      have h' : rec'.currentStreakCount < 10 := h10
      have g10 : ¬ 10 ≤ rec'.currentStreakCount := by omega
      show trustIncrease rec'.currentStreakCount = 5/2
      simp only [trustIncrease, trustBonus, ge_iff_le, h, g10, if_pos,
        if_neg, not_false_iff]
      norm_num
    · intro h3 h7
      have h : 3 ≤ rec'.currentStreakCount := h3
      have h' : rec'.currentStreakCount < 7 := h7
      have g10 : ¬ 10 ≤ rec'.currentStreakCount := by omega
      have g7 : ¬ 7 ≤ rec'.currentStreakCount := by omega
      show trustIncrease rec'.currentStreakCount = 2
      simp only [trustIncrease, trustBonus, ge_iff_le, h, g10, g7, if_pos,
        if_neg, not_false_iff]
      norm_num
    · intro h3
      have h' : rec'.currentStreakCount < 3 := h3
      have g10 : ¬ 10 ≤ rec'.currentStreakCount := by omega
      have g7 : ¬ 7 ≤ rec'.currentStreakCount := by omega
      have g3 : ¬ 3 ≤ rec'.currentStreakCount := by omega
      show trustIncrease rec'.currentStreakCount = 1
      simp only [trustIncrease, trustBonus, ge_iff_le, g10, g7, g3,
        if_neg, not_false_iff]
      norm_num
    · intro h99 hinc
      have h3 : trustIncrease rec'.currentStreakCount = 3 := hinc
      show min 100 (user.trustScore + trustIncrease rec'.currentStreakCount)
        = 100
      rw [h99, h3]
      norm_num

/-- Witness for C5: a concrete completion on a fresh record with the user at
trust 99 keeps the trust score at most 100. -/
theorem trust_score_update_witness :
    ∃ outcome,
      completeChallenge 0 "p" (freshRecord 0)
          ⟨99, [], [], Grade.bronze⟩ "uid" "health" [] [] = .ok outcome ∧
        outcome.user.trustScore ≤ 100 := by
  refine ⟨_, rfl, ?_⟩
  exact (trust_score_update 0 "p" (freshRecord 0)
    ⟨99, [], [], Grade.bronze⟩ "uid" "health" [] [] _
    rfl).2.2.2.2.2.2.2.1

/-- C7: the grade classifier is a pure function of the earned-badge count
with brackets at 40 (diamond), 20 (gold) and 10 (silver), bronze below; 12
badges give silver, 39 give gold, 40 give diamond; and the stored grade is
written only when the computed tier differs from the stored one. -/
theorem grade_classifier (stored : Grade) (count : Nat) :
    (40 ≤ count → gradeForBadgeCount count = .diamond) ∧
    (20 ≤ count → count < 40 → gradeForBadgeCount count = .gold) ∧
    (10 ≤ count → count < 20 → gradeForBadgeCount count = .silver) ∧
    (count < 10 → gradeForBadgeCount count = .bronze) ∧
    gradeForBadgeCount 12 = .silver ∧
    gradeForBadgeCount 39 = .gold ∧
    gradeForBadgeCount 40 = .diamond ∧
    (gradeUpdate stored count).1 = gradeForBadgeCount count ∧
    ((gradeUpdate stored count).2 = true ↔
      stored ≠ gradeForBadgeCount count) := by
  refine ⟨?_, ?_, ?_, ?_, by decide, by decide, by decide, ?_, ?_⟩
  · intro h
    simp [gradeForBadgeCount, h]
  · intro h20 h40
    have : ¬ 40 ≤ count := by omega
    simp [gradeForBadgeCount, h20, this]
  · intro h10 h20
    have g40 : ¬ 40 ≤ count := by omega
    have g20 : ¬ 20 ≤ count := by omega
    simp [gradeForBadgeCount, h10, g40, g20]
  · intro h10
    have g40 : ¬ 40 ≤ count := by omega
    have g20 : ¬ 20 ≤ count := by omega
    have g10 : ¬ 10 ≤ count := by omega
    simp [gradeForBadgeCount, g40, g20, g10]
  · simp only [gradeUpdate]
    split <;> rename_i h
    · rfl
    · simpa using not_ne_iff.mp h
  · simp only [gradeUpdate]
    split <;> rename_i h <;> simp [h]

/-- Witness for C7: at 40 badges the classifier yields diamond. -/
theorem grade_classifier_witness :
    gradeForBadgeCount 40 = Grade.diamond :=
  (grade_classifier Grade.bronze 40).1 (by decide)

end JoinUp

namespace JoinUp

theorem jsRound_nonneg {q : ℚ} (h : 0 ≤ q) : 0 ≤ jsRound q := by
  rw [jsRound, Int.le_floor]
  push_cast
  linarith

theorem jsRound_le_100 {q : ℚ} (h : q ≤ 100) : jsRound q ≤ 100 := by
  have : jsRound q < 101 := by
    rw [jsRound, Int.floor_lt]
    push_cast
    linarith
  omega

/-- C4 (amended): the recompute sets the rate to
`round(100 * totalActual / totalPossible)` over the challenge's records and
to 0 when there are none; the result is always nonnegative, and it is at
most 100 whenever every record's `totalCompletions` does not exceed its
(30-day-capped) `possibleDays` — without that per-record premise the cap can
push the rate above 100. -/
theorem completion_rate_bounds (records : List RateRecord) :
    updateCompletionRate [] = 0 ∧
    (records.length ≠ 0 →
      updateCompletionRate records =
        jsRound (100 * ((records.map (·.totalCompletions)).sum : ℚ) /
          (((records.map possibleDays).sum : ℤ) : ℚ))) ∧
    0 ≤ updateCompletionRate records ∧
    ((∀ r ∈ records, (r.totalCompletions : ℤ) ≤ possibleDays r) →
      updateCompletionRate records ≤ 100) := by
  have hcastA : (((records.map (·.totalCompletions)).sum : ℕ) : ℚ) =
      (records.map (fun r => (r.totalCompletions : ℚ))).sum := by
    rw [Nat.cast_list_sum, List.map_map]
    rfl
  have hcastP : ((((records.map possibleDays).sum : ℤ)) : ℚ) =
      (records.map (fun r => ((possibleDays r : ℤ) : ℚ))).sum := by
    rw [Int.cast_list_sum, List.map_map]
    rfl
  refine ⟨by simp [updateCompletionRate], ?_, ?_, ?_⟩
  · intro hlen
    unfold updateCompletionRate
    rw [if_neg hlen, if_pos (sum_possibleDays_pos hlen)]
    congr 1
    ring
  · by_cases hlen : records.length = 0
    · simp [updateCompletionRate, hlen]
    · unfold updateCompletionRate
      rw [if_neg hlen, if_pos (sum_possibleDays_pos hlen)]
      have hp : (0 : ℚ) < (((records.map possibleDays).sum : ℤ) : ℚ) := by
        exact_mod_cast sum_possibleDays_pos hlen
      refine jsRound_nonneg ?_
      have ha : (0 : ℚ) ≤ (records.map (fun r => (r.totalCompletions : ℚ))).sum := by
        refine List.sum_nonneg ?_
        intro x hx
        simp only [List.mem_map] at hx
        obtain ⟨r, -, rfl⟩ := hx
        exact Nat.cast_nonneg _
      exact mul_nonneg (div_nonneg ha (le_of_lt hp)) (by norm_num)
  · intro hle
    by_cases hlen : records.length = 0
    · simp [updateCompletionRate, hlen]
    · unfold updateCompletionRate
      rw [if_neg hlen, if_pos (sum_possibleDays_pos hlen)]
      have hp : (0 : ℚ) < (((records.map possibleDays).sum : ℤ) : ℚ) := by
        exact_mod_cast sum_possibleDays_pos hlen
      refine jsRound_le_100 ?_
      have hAP : (records.map (fun r => (r.totalCompletions : ℚ))).sum ≤
          (((records.map possibleDays).sum : ℤ) : ℚ) := by
        rw [hcastP]
        refine List.sum_le_sum ?_
        intro r hr
        exact_mod_cast hle r hr
      have hdiv : (records.map (fun r => (r.totalCompletions : ℚ))).sum /
          (((records.map possibleDays).sum : ℤ) : ℚ) ≤ 1 :=
        (div_le_one hp).mpr hAP
      calc (records.map (fun r => (r.totalCompletions : ℚ))).sum /
            (((records.map possibleDays).sum : ℤ) : ℚ) * 100
          ≤ 1 * 100 :=
            mul_le_mul_of_nonneg_right hdiv (by norm_num)
        _ = 100 := by norm_num
      
/-- Witness for C4: a single record one day old with no completions gives
rate 0, inside the claimed bounds. -/
theorem completion_rate_bounds_witness :
    updateCompletionRate [⟨0, 0⟩] ≤ 100 :=
  (completion_rate_bounds [⟨0, 0⟩]).2.2.2 (by decide)

/-- C4 counterexample: a participant 59 days into the challenge (a reachable
state) with 50 recorded completions has `possibleDays` capped at 30, so the
recompute yields `round(100 * 50 / 30) = 167`, outside the claimed range
[0, 100]. -/
theorem completion_rate_above_100 :
    updateCompletionRate [⟨59, 50⟩] = 167 ∧
    ¬ updateCompletionRate [⟨59, 50⟩] ≤ 100 := by
  have h : updateCompletionRate [⟨59, 50⟩] = 167 := by
    unfold updateCompletionRate
    rw [if_neg (by decide), if_pos (by decide)]
    have harg :
        ((([(⟨59, 50⟩ : RateRecord)].map
            (fun x => (x.totalCompletions : ℚ))).sum) /
          ((((([(⟨59, 50⟩ : RateRecord)].map possibleDays).sum : ℤ)) : ℚ)) *
            100) = 500/3 := by
      norm_num [possibleDays, List.map_cons, List.map_nil, List.sum_cons,
        List.sum_nil]
    rw [harg, jsRound, show ((500/3 : ℚ) + 1/2) = 1003/6 by norm_num]
    rw [Int.floor_eq_iff]
    norm_num
  exact ⟨h, by omega⟩

end JoinUp

namespace JoinUp

theorem awardBadge_earned (stats : UserStats) (u : UserState) (b : Badge) :
    ∀ id : Nat,
      id ∈ (awardBadge stats u b).earnedBadges ↔
        id ∈ u.earnedBadges ∨ (b.id = id ∧ conditionMet stats b = true) := by
  intro id
  unfold awardBadge
  by_cases hin : b.id ∈ u.earnedBadges
  · rw [if_pos hin]
    constructor
    · exact fun h => Or.inl h
    · rintro (h | ⟨rfl, -⟩)
      · exact h
      · exact hin
  · rw [if_neg hin]
    by_cases hmet : conditionMet stats b = true
    · rw [if_pos hmet]
      simp only [List.mem_append, List.mem_singleton]
      constructor
      · rintro (h | rfl)
        · exact Or.inl h
        · exact Or.inr ⟨rfl, hmet⟩
      · rintro (h | ⟨rfl, -⟩)
        · exact Or.inl h
        · exact Or.inr rfl
    · rw [if_neg hmet]
      constructor
      · exact fun h => Or.inl h
      · rintro (h | ⟨-, hm⟩)
        · exact h
        · exact absurd hm hmet

theorem awardBadge_append (stats : UserStats) (u : UserState) (b : Badge) :
    ∃ l, (awardBadge stats u b).earnedBadges = u.earnedBadges ++ l := by
  unfold awardBadge
  by_cases hin : b.id ∈ u.earnedBadges
  · exact ⟨[], by rw [if_pos hin]; simp⟩
  · rw [if_neg hin]
    by_cases hmet : conditionMet stats b = true
    · exact ⟨[b.id], by rw [if_pos hmet]⟩
    · exact ⟨[], by rw [if_neg hmet]; simp⟩

theorem awardBadge_nodup (stats : UserStats) (u : UserState) (b : Badge)
    (h : u.earnedBadges.Nodup) : (awardBadge stats u b).earnedBadges.Nodup := by
  unfold awardBadge
  by_cases hin : b.id ∈ u.earnedBadges
  · rw [if_pos hin]; exact h
  · rw [if_neg hin]
    by_cases hmet : conditionMet stats b = true
    · rw [if_pos hmet]
      refine List.Nodup.append h (List.nodup_singleton _) ?_
      intro x hx hxb
      rw [List.mem_singleton] at hxb
      exact hin (hxb ▸ hx)
    · rw [if_neg hmet]; exact h

theorem checkAndAwardBadges_mem (stats : UserStats) (catalog : List Badge) :
    ∀ (u : UserState) (id : Nat),
      id ∈ (checkAndAwardBadges stats catalog u).earnedBadges ↔
        id ∈ u.earnedBadges ∨
          ∃ b ∈ catalog, b.id = id ∧ conditionMet stats b = true := by
  induction catalog with
  | nil => intro u id; simp [checkAndAwardBadges]
  | cons b t ih =>
    intro u id
    show id ∈ (checkAndAwardBadges stats t (awardBadge stats u b)).earnedBadges
      ↔ _
    rw [ih (awardBadge stats u b) id, awardBadge_earned]
    simp only [List.mem_cons]
    constructor
    · rintro ((h | hb) | ⟨b', hb', hid⟩)
      · exact Or.inl h
      · exact Or.inr ⟨b, Or.inl rfl, hb⟩
      · exact Or.inr ⟨b', Or.inr hb', hid⟩
    · rintro (h | ⟨b', hb' | hb', hid⟩)
      · exact Or.inl (Or.inl h)
      · exact Or.inl (Or.inr (hb' ▸ hid))
      · exact Or.inr ⟨b', hb', hid⟩

theorem checkAndAwardBadges_append (stats : UserStats) (catalog : List Badge) :
    ∀ u : UserState,
      ∃ l, (checkAndAwardBadges stats catalog u).earnedBadges =
        u.earnedBadges ++ l := by
  induction catalog with
  | nil => intro u; exact ⟨[], by simp [checkAndAwardBadges]⟩
  | cons b t ih =>
    intro u
    obtain ⟨l1, h1⟩ := awardBadge_append stats u b
    obtain ⟨l2, h2⟩ := ih (awardBadge stats u b)
    refine ⟨l1 ++ l2, ?_⟩
    show (checkAndAwardBadges stats t (awardBadge stats u b)).earnedBadges = _
    rw [h2, h1, List.append_assoc]

theorem checkAndAwardBadges_nodup (stats : UserStats) (catalog : List Badge) :
    ∀ u : UserState, u.earnedBadges.Nodup →
      (checkAndAwardBadges stats catalog u).earnedBadges.Nodup := by
  induction catalog with
  | nil => intro u h; exact h
  | cons b t ih =>
    intro u h
    exact ih (awardBadge stats u b) (awardBadge_nodup stats u b h)

/-- C6: one run of the badge engine leaves a badge id earned exactly when it
was already earned or its catalog condition holds against the matching
aggregate (threshold reached); the earned list is only ever extended at the
end (nothing removed), re-running preserves freedom from duplicates, and the
condition of each kind compares exactly the aggregate named by the spec. -/
theorem badge_engine_correct (stats : UserStats) (catalog : List Badge)
    (u : UserState) :
    (∀ id : Nat,
      id ∈ (checkAndAwardBadges stats catalog u).earnedBadges ↔
        id ∈ u.earnedBadges ∨
          ∃ b ∈ catalog, b.id = id ∧ conditionMet stats b = true) ∧
    (∃ l, (checkAndAwardBadges stats catalog u).earnedBadges =
      u.earnedBadges ++ l) ∧
    (u.earnedBadges.Nodup →
      (checkAndAwardBadges stats catalog u).earnedBadges.Nodup) ∧
    (∀ b : Badge,
      (b.condition.type = .completions →
        (conditionMet stats b = true ↔
          b.condition.value ≤ stats.totalCompletions)) ∧
      (b.condition.type = .streak →
        (conditionMet stats b = true ↔
          b.condition.value ≤ stats.maxStreak)) ∧
      (b.condition.type = .score →
        (conditionMet stats b = true ↔
          b.condition.value ≤ stats.totalScore)) ∧
      (b.condition.type = .challenges →
        (conditionMet stats b = true ↔
          b.condition.value ≤ stats.totalChallenges)) ∧
      (b.condition.type = .days →
        (conditionMet stats b = true ↔
          b.condition.value ≤ stats.totalActiveDays)) ∧
      (∀ target, b.condition.type = .categoryCompletions →
        b.condition.categoryTarget = some target →
        (conditionMet stats b = true ↔
          b.condition.value ≤ stats.categoryCompletions target))) := by
  refine ⟨checkAndAwardBadges_mem stats catalog u,
    checkAndAwardBadges_append stats catalog u,
    checkAndAwardBadges_nodup stats catalog u, ?_⟩
  intro b
  refine ⟨?_, ?_, ?_, ?_, ?_, ?_⟩ <;>
    first
    | (intro ht; simp [conditionMet, ht, ge_iff_le])
    | (intro target ht htgt; simp [conditionMet, ht, htgt, ge_iff_le])

/-- Witness for C6: a one-badge catalog whose completions threshold is met
awards the badge to a fresh user. -/
theorem badge_engine_correct_witness :
    (5 : Nat) ∈ (checkAndAwardBadges
      ⟨5, 0, 0, 0, 0, fun _ => 0⟩ [⟨5, ⟨.completions, 3, none⟩⟩]
      ⟨0, [], [], Grade.bronze⟩).earnedBadges :=
  (badge_engine_correct ⟨5, 0, 0, 0, 0, fun _ => 0⟩
    [⟨5, ⟨.completions, 3, none⟩⟩] ⟨0, [], [], Grade.bronze⟩).1 5 |>.mpr
    (Or.inr ⟨⟨5, ⟨.completions, 3, none⟩⟩, by simp, rfl, by decide⟩)

end JoinUp

namespace JoinUp

/-- Record of a user four completions in (days 0 to 3), one completion short
of the five-completions badge. -/
def bugRecord : ProgressRecord :=
  { completedDates := [0, 1, 2, 3]
    completionPhotos := [(0, "p0"), (1, "p1"), (2, "p2"), (3, "p3")]
    startDate := 0
    score := 40
    totalCompletions := 4
    currentStreakCount := 4
    maxStreakCount := 4
    lastCompletionDate := some 3 }

/-- Catalog badge requiring five completions. -/
def badgeFive : Badge := ⟨1, ⟨.completions, 5, none⟩⟩

/-- User profile before the completion that reaches the threshold. -/
def bugUser : UserState := ⟨50, [], [], Grade.bronze⟩

/-- C3 (code bug): the completion that lifts the user's lifetime
`totalCompletions` from 4 to 5 qualifies the five-completions badge — a
proper engine run over the post-completion aggregates awards it — yet the
cascaded state and the response carry no badge, because `completeChallenge`
invokes the `checkAndAwardBadges` Express handler with a bare userId string,
whose `req.user.id` access throws inside the handler's own try/catch. -/
theorem badge_cascade_drops_award :
    ∃ outcome,
      completeChallenge 4 "p4" bugRecord bugUser "uid" "health" [] [badgeFive]
          = .ok outcome ∧
      outcome.record.totalCompletions = 5 ∧
      (userStatsOf [("health", outcome.record)]).totalCompletions = 5 ∧
      conditionMet (userStatsOf [("health", outcome.record)]) badgeFive
          = true ∧
      (checkAndAwardBadges (userStatsOf [("health", outcome.record)])
          [badgeFive] bugUser).earnedBadges = [badgeFive.id] ∧
      outcome.user.earnedBadges = [] ∧
      outcome.response.totalBadges = 0 := by
  refine ⟨_, rfl, by decide, by decide, by decide, by decide, rfl, rfl⟩

end JoinUp

namespace JoinUp

/-- Ranking-relevant fields of a progress record. -/
structure RankRecord where
  score : Nat
  totalCompletions : Nat
  currentStreakCount : Nat
  maxStreakCount : Nat
  deriving DecidableEq, Repr

/-- Ranking metric selected by the request's `type` query parameter. -/
inductive RankMetric where
  | score | completions | streak
  deriving DecidableEq, Repr

/-- Sort-key triple for a metric, in the order of the mongo `$sort` stages of
`getChallengeRanking` (ranking controller lines 554-564): `score` sorts by
(score, totalCompletions), `completions` by (totalCompletions, score), and
`streak` by (maxStreakCount, currentStreakCount, score); two-key metrics get
a constant third component. -/
def sortKey (m : RankMetric) (r : RankRecord) : Nat × Nat × Nat :=
  match m with
  | .score => (r.score, r.totalCompletions, 0)
  | .completions => (r.totalCompletions, r.score, 0)
  | .streak => (r.maxStreakCount, r.currentStreakCount, r.score)

/-- Descending lexicographic comparison of key triples: `x` may precede `y`
when `x`'s key is lexicographically at least `y`'s. -/
def lexGe (x y : Nat × Nat × Nat) : Bool :=
  decide (y.1 < x.1 ∨ (x.1 = y.1 ∧
    (y.2.1 < x.2.1 ∨ (x.2.1 = y.2.1 ∧ y.2.2 ≤ x.2.2))))

/-- Record comparison used to model the `$sort` stage for a metric. -/
def rankLe (m : RankMetric) (a b : RankRecord) : Bool :=
  lexGe (sortKey m a) (sortKey m b)

/-- Per-challenge ranking (`getChallengeRanking`): sort the challenge's
records by the metric's multi-key descending order, paginate with
`$skip (page-1)*limit` and `$limit limit`, and attach
`rank = (page-1)*limit + index + 1` to each row. -/
def getChallengeRanking (m : RankMetric) (page limit : Nat)
    (records : List RankRecord) : List (Nat × RankRecord) :=
  let sorted := records.mergeSort (rankLe m)
  let pageItems := (sorted.drop ((page - 1) * limit)).take limit
  pageItems.enum.map (fun p => ((page - 1) * limit + p.1 + 1, p.2))

/-- Failure of `getMyChallengeRank`: the requesting user has no progress
record in the challenge (404). -/
inductive RankError where
  | notFound
  deriving DecidableEq, Repr

/-- Match condition of `getMyChallengeRank` (ranking controller lines
726-774): `other` strictly precedes `mine` when it is strictly greater on
the metric's primary key, or ties the primary and is strictly greater on the
first tie-break, or (streak only) ties both and is strictly greater on the
second tie-break. -/
def strictlyPrecedes (m : RankMetric) (other mine : RankRecord) : Bool :=
  match m with
  | .completions =>
      decide (mine.totalCompletions < other.totalCompletions ∨
        (other.totalCompletions = mine.totalCompletions ∧
          mine.score < other.score))
  | .streak =>
      decide (mine.maxStreakCount < other.maxStreakCount ∨
        (other.maxStreakCount = mine.maxStreakCount ∧
          mine.currentStreakCount < other.currentStreakCount) ∨
        (other.maxStreakCount = mine.maxStreakCount ∧
          other.currentStreakCount = mine.currentStreakCount ∧
          mine.score < other.score))
  | .score =>
      decide (mine.score < other.score ∨
        (other.score = mine.score ∧
          mine.totalCompletions < other.totalCompletions))

/-- Payload of a successful `getMyChallengeRank`. -/
structure MyRankResult where
  rank : Nat
  totalParticipants : Nat
  percentile : ℤ
  deriving DecidableEq, Repr

/-- My-rank query (`getMyChallengeRank`, ranking controller lines 699-819):
404 when the user has no record; otherwise rank is one plus the number of
the challenge's records matching the strict-precedence condition, and
percentile is `Math.round(((total - rank + 1) / total) * 100)`. -/
def getMyChallengeRank (m : RankMetric) (challengeRecords : List RankRecord)
    (mine : Option RankRecord) : Except RankError MyRankResult :=
  match mine with
  | none => .error .notFound
  | some r =>
    let higherRankCount :=
      (challengeRecords.filter (fun o => strictlyPrecedes m o r)).length
    let myRank := higherRankCount + 1
    let total := challengeRecords.length
    .ok { rank := myRank
          totalParticipants := total
          percentile := jsRound
            ((((total : ℚ) - (myRank : ℚ) + 1) / (total : ℚ)) * 100) }

/-- Precedence predicate in the spec's wording: strictly greater on the
primary key, or equal on the primary and strictly greater on the first
tie-break, or equal on both and strictly greater on the second tie-break,
over the metric's key triple. -/
def specPrecedes (m : RankMetric) (other mine : RankRecord) : Prop :=
  (sortKey m mine).1 < (sortKey m other).1 ∨
  ((sortKey m other).1 = (sortKey m mine).1 ∧
    (sortKey m mine).2.1 < (sortKey m other).2.1) ∨
  ((sortKey m other).1 = (sortKey m mine).1 ∧
    (sortKey m other).2.1 = (sortKey m mine).2.1 ∧
    (sortKey m mine).2.2 < (sortKey m other).2.2)

end JoinUp

namespace JoinUp

theorem rankLe_total (m : RankMetric) (a b : RankRecord) :
    rankLe m a b || rankLe m b a := by
  cases m <;>
    simp only [rankLe, lexGe, sortKey, Bool.or_eq_true, decide_eq_true_eq] <;>
    omega

theorem rankLe_trans (m : RankMetric) (a b c : RankRecord) :
    rankLe m a b → rankLe m b c → rankLe m a c := by
  cases m <;>
    simp only [rankLe, lexGe, sortKey, decide_eq_true_eq] <;>
    omega

end JoinUp

namespace JoinUp

theorem strictlyPrecedes_irrefl (m : RankMetric) (r : RankRecord) :
    ¬ strictlyPrecedes m r r = true := by
  cases m <;> simp only [strictlyPrecedes, decide_eq_true_eq] <;> omega

/-- C9: the per-challenge ranking sorts the challenge's records (a
permutation, nothing added or dropped) so that consecutive entries respect
the metric's multi-key descending order — spelled out per metric below —
assigns `rank = (page-1)*limit + index + 1` to the paginated rows, orders
equal-score records with different `totalCompletions` by `totalCompletions`
descending under the `score` metric, and as a pure function yields the same
ordering when run twice on unchanged records. -/
theorem challenge_ranking_order (m : RankMetric) (page limit : Nat)
    (records : List RankRecord) :
    (records.mergeSort (rankLe m)).Perm records ∧
    (records.mergeSort (rankLe m)).Pairwise
      (fun a b => rankLe m a b = true) ∧
    (∀ a b : RankRecord, rankLe .score a b = true ↔
      (b.score < a.score ∨ (a.score = b.score ∧
        b.totalCompletions ≤ a.totalCompletions))) ∧
    (∀ a b : RankRecord, rankLe .completions a b = true ↔
      (b.totalCompletions < a.totalCompletions ∨
        (a.totalCompletions = b.totalCompletions ∧ b.score ≤ a.score))) ∧
    (∀ a b : RankRecord, rankLe .streak a b = true ↔
      (b.maxStreakCount < a.maxStreakCount ∨
        (a.maxStreakCount = b.maxStreakCount ∧
          (b.currentStreakCount < a.currentStreakCount ∨
            (a.currentStreakCount = b.currentStreakCount ∧
              b.score ≤ a.score))))) ∧
    (∀ i (hi : i < (getChallengeRanking m page limit records).length),
      ((getChallengeRanking m page limit records).get ⟨i, hi⟩).1 =
        (page - 1) * limit + i + 1) ∧
    (∀ i j (hi : i < (records.mergeSort (rankLe .score)).length)
        (hj : j < (records.mergeSort (rankLe .score)).length), i < j →
      ((records.mergeSort (rankLe .score)).get ⟨i, hi⟩).score =
        ((records.mergeSort (rankLe .score)).get ⟨j, hj⟩).score →
      ((records.mergeSort (rankLe .score)).get ⟨i, hi⟩).totalCompletions ≠
        ((records.mergeSort (rankLe .score)).get ⟨j, hj⟩).totalCompletions →
      ((records.mergeSort (rankLe .score)).get ⟨j, hj⟩).totalCompletions <
        ((records.mergeSort (rankLe .score)).get ⟨i, hi⟩).totalCompletions) ∧
    getChallengeRanking m page limit records =
      getChallengeRanking m page limit records := by
  refine ⟨List.mergeSort_perm records (rankLe m),
    List.sorted_mergeSort (rankLe_trans m) (rankLe_total m) records,
    ?_, ?_, ?_, ?_, ?_, rfl⟩
  · intro a b
    simp only [rankLe, lexGe, sortKey, decide_eq_true_eq]
    omega
  · intro a b
    simp only [rankLe, lexGe, sortKey, decide_eq_true_eq]
    omega
  · intro a b
    simp only [rankLe, lexGe, sortKey, decide_eq_true_eq]
  · intro i hi
    simp only [getChallengeRanking] at hi ⊢
    rw [List.get_eq_getElem]
    simp only [List.getElem_map, List.getElem_enum]
  · intro i j hi hj hij hsc htc
    have hp := (List.pairwise_iff_get.mp
      (List.sorted_mergeSort (rankLe_trans .score) (rankLe_total .score)
        records)) ⟨i, hi⟩ ⟨j, hj⟩ hij
    simp only [rankLe, lexGe, sortKey, decide_eq_true_eq] at hp
    omega

/-- Witness for C9: two records tied on score are returned sorted by
completions descending, as a permutation of the input. -/
theorem challenge_ranking_order_witness :
    (([⟨10, 2, 0, 0⟩, ⟨10, 5, 0, 0⟩] : List RankRecord).mergeSort
      (rankLe .score)).Perm [⟨10, 2, 0, 0⟩, ⟨10, 5, 0, 0⟩] :=
  (challenge_ranking_order .score 1 20 [⟨10, 2, 0, 0⟩, ⟨10, 5, 0, 0⟩]).1

/-- C8: for a user who has a record, the my-rank query returns rank = 1 plus
the number of the challenge's records strictly preceding the user's under
the metric's tie-break disjunction (the same key order the ranking sort
uses), and percentile = round(100 * (total - rank + 1) / total). -/
theorem my_rank_formula (m : RankMetric) (records : List RankRecord)
    (r : RankRecord) (res : MyRankResult)
    (hok : getMyChallengeRank m records (some r) = .ok res) :
    (∀ o : RankRecord, strictlyPrecedes m o r = true ↔ specPrecedes m o r) ∧
    res.rank = 1 + records.countP (fun o => strictlyPrecedes m o r) ∧
    res.totalParticipants = records.length ∧
    res.percentile = jsRound
      (100 * ((records.length : ℚ) - (res.rank : ℚ) + 1) /
        (records.length : ℚ)) := by
  unfold getMyChallengeRank at hok
  cases hok
  refine ⟨?_, ?_, rfl, ?_⟩
  · intro o
    cases m <;>
      simp only [strictlyPrecedes, specPrecedes, sortKey,
        decide_eq_true_eq] <;>
      omega
  · rw [List.countP_eq_length_filter]
    exact Nat.add_comm _ 1
  · show jsRound _ = jsRound _
    ring_nf

/-- Witness for C8 on a one-record challenge: the user's own record yields
rank 1. -/
theorem my_rank_formula_witness :
    ∃ res, getMyChallengeRank .score [⟨7, 3, 1, 2⟩] (some ⟨7, 3, 1, 2⟩) =
        .ok res ∧
      res.rank = 1 + ([(⟨7, 3, 1, 2⟩ : RankRecord)].countP
        (fun o => strictlyPrecedes .score o ⟨7, 3, 1, 2⟩)) :=
  ⟨_, rfl, (my_rank_formula .score [⟨7, 3, 1, 2⟩] ⟨7, 3, 1, 2⟩ _ rfl).2.1⟩

end JoinUp

namespace JoinUp

/-- C10 (amended): when the requesting user has no record the query fails
with NotFound before computing anything; when the user's record is among the
challenge's records, the participant total is at least 1 (no division by
zero), the rank lies between 1 and the total, and the percentile lies in
[0, 100] — the lower end is 0, not 1: with enough participants the bottom
rank rounds down to percentile 0. -/
theorem my_rank_bounds (m : RankMetric) (records : List RankRecord)
    (r : RankRecord) (res : MyRankResult)
    (hok : getMyChallengeRank m records (some r) = .ok res)
    (hmem : r ∈ records) :
    getMyChallengeRank m records none = .error .notFound ∧
    1 ≤ res.totalParticipants ∧
    1 ≤ res.rank ∧
    res.rank ≤ res.totalParticipants ∧
    0 ≤ res.percentile ∧
    res.percentile ≤ 100 := by
  unfold getMyChallengeRank at hok
  cases hok
  have hcount : (records.filter (fun o => strictlyPrecedes m o r)).length <
      records.length :=
    List.length_filter_lt_length_iff_exists.mpr
      ⟨r, hmem, by simpa using strictlyPrecedes_irrefl m r⟩
  have hlen : 1 ≤ records.length := List.length_pos_of_mem hmem
  refine ⟨rfl, hlen, Nat.succ_le_succ (Nat.zero_le _), ?_, ?_, ?_⟩
  · show (records.filter (fun o => strictlyPrecedes m o r)).length + 1 ≤
      records.length
    omega
  · refine jsRound_nonneg ?_
    have h1 : (1 : ℚ) ≤
        ((records.length : ℚ) -
          (((records.filter (fun o => strictlyPrecedes m o r)).length + 1 :
            ℕ) : ℚ) + 1) := by
      push_cast
      have : ((records.filter (fun o => strictlyPrecedes m o r)).length : ℚ)
          + 1 ≤ (records.length : ℚ) := by
        exact_mod_cast hcount
      linarith
    have h2 : (0 : ℚ) < (records.length : ℚ) := by
      exact_mod_cast hlen
    positivity
  · refine jsRound_le_100 ?_
    have h2 : (0 : ℚ) < (records.length : ℚ) := by
      exact_mod_cast hlen
    have h3 : ((records.length : ℚ) -
        (((records.filter (fun o => strictlyPrecedes m o r)).length + 1 :
          ℕ) : ℚ) + 1) ≤ (records.length : ℚ) := by
      push_cast
      have : (0 : ℚ) ≤
          ((records.filter (fun o => strictlyPrecedes m o r)).length : ℚ) :=
        Nat.cast_nonneg _
      linarith
    have hdiv : ((records.length : ℚ) -
        (((records.filter (fun o => strictlyPrecedes m o r)).length + 1 :
          ℕ) : ℚ) + 1) / (records.length : ℚ) ≤ 1 :=
      (div_le_one h2).mpr h3
    calc ((records.length : ℚ) -
          (((records.filter (fun o => strictlyPrecedes m o r)).length + 1 :
            ℕ) : ℚ) + 1) / (records.length : ℚ) * 100
        ≤ 1 * 100 := mul_le_mul_of_nonneg_right hdiv (by norm_num)
      _ = 100 := by norm_num

/-- Witness for C10 on a one-record challenge: the sole participant gets
rank 1 of 1 and percentile within [0, 100]. -/
theorem my_rank_bounds_witness :
    ∃ res, getMyChallengeRank .streak [⟨7, 3, 1, 2⟩] (some ⟨7, 3, 1, 2⟩) =
        .ok res ∧ 1 ≤ res.rank ∧ res.rank ≤ res.totalParticipants ∧
        0 ≤ res.percentile ∧ res.percentile ≤ 100 := by
  refine ⟨_, rfl, ?_⟩
  have h := my_rank_bounds .streak [⟨7, 3, 1, 2⟩] ⟨7, 3, 1, 2⟩ _ rfl
    (by decide)
  exact ⟨h.2.2.1, h.2.2.2.1, h.2.2.2.2.1, h.2.2.2.2.2⟩

/-- Challenge with 201 participants: scores 0 to 200, the user under test
holding score 0. -/
def manyRecords : List RankRecord :=
  (List.range 201).map (fun i => ⟨i, 0, 0, 0⟩)

end JoinUp

namespace JoinUp

set_option maxRecDepth 20000 in
/-- C10 counterexample: in a challenge with 201 participants the
bottom-ranked user gets rank 201 and percentile
`round(100 * (201 - 201 + 1) / 201) = round(0.4975...) = 0`, below the
claimed lower bound of 1. -/
theorem my_rank_percentile_zero :
    (⟨0, 0, 0, 0⟩ : RankRecord) ∈ manyRecords ∧
    getMyChallengeRank .score manyRecords (some ⟨0, 0, 0, 0⟩) =
      .ok ⟨201, 201, 0⟩ ∧
    ¬ (1 ≤ (⟨201, 201, 0⟩ : MyRankResult).percentile) := by
  have hcount : (manyRecords.filter
      (fun o => strictlyPrecedes .score o ⟨0, 0, 0, 0⟩)).length = 200 := by
    decide
  have hlen : manyRecords.length = 201 := by decide
  refine ⟨by decide, ?_, by decide⟩
  unfold getMyChallengeRank
  simp only [hcount, hlen]
  norm_num [MyRankResult.mk.injEq]
  rw [jsRound, show ((100 : ℚ)/201 + 1/2) = 401/402 by norm_num]
  rw [Int.floor_eq_iff]
  norm_num

end JoinUp
